import Mathlib

/-!
Verification of the FlowdexMCP FTP/SFTP MCP server core (src/index.js).

The development shallowly embeds the core pure logic of the server:
protocol selection (`isSFTP`, `getPort`), the ignore matcher
(`shouldIgnore` over a model of `minimatch` restricted to the options the
code uses), the recursive remote tree walk (`getTreeRecursive`), the sync
engine (`syncFiles`), and the `ftp_exists` / `ftp_copy` tool handlers.
Remote-server and local-filesystem effects are modelled by explicit
oracles (functions returning `Except`), and local/remote directory trees
by inductive tree types.  JavaScript strings are Lean `String`s, JS
number timestamps are `Nat`.
-/

namespace Flowdex

/-! ## String helpers (models of the JS string/path primitives used) -/

/-- Boolean list-prefix test (model of JS `String.prototype.startsWith`
at the character level). -/
def listStarts : List Char → List Char → Bool
  | [], _ => true
  | _ :: _, [] => false
  | a :: as, b :: bs => a == b && listStarts as bs

/-- Boolean list-infix test: `sub` occurs contiguously in the second list
(model of JS `String.prototype.includes`). -/
def listInside (sub : List Char) : List Char → Bool
  | [] => listStarts sub []
  | c :: rest => listStarts sub (c :: rest) || listInside sub rest

/-- Model of JS `host.includes(sub)`. -/
def strContains (s sub : String) : Bool :=
  listInside sub.toList s.toList

/-- Model of JS `host.startsWith(pre)`. -/
def strStartsWith (s pre : String) : Bool :=
  listStarts pre.toList s.toList

/-! ## Protocol selection (src/index.js lines 138-146) -/

/-- `isSFTP(host)` from src/index.js:
`host && (host.includes('sftp') || host.startsWith('sftp://'))`.
The truthiness test on `host` is dropped: a Lean `String` is never
`null`/`undefined`, and the empty string contains no substring anyway. -/
def isSFTP (host : String) : Bool :=
  strContains host "sftp" || strStartsWith host "sftp://"

/-- `getPort(host, configPort)` from src/index.js.  A configured port is
modelled as `some p` (JS truthy `configPort`, with `parseInt` already
applied); an absent/falsy port is `none`. -/
def getPort (host : String) (configPort : Option Nat) : Nat :=
  match configPort with
  | some p => p
  | none => if isSFTP host then 22 else 21

/-! ## Path helpers (models of the Node `path` primitives used) -/

/-- Characters after the last `'/'` (the whole list when there is none). -/
def afterLastSlash (l : List Char) : List Char :=
  l.foldl (fun acc c => if c == '/' then [] else acc ++ [c]) []

/-- Model of Node `path.basename` for forward-slash paths. -/
def jsBasename (s : String) : String :=
  String.mk (afterLastSlash s.toList)

/-- Model of Node `path.relative(base, fp)` followed by the
backslash-to-slash replacement done in `shouldIgnore`, for the case
arising in the sync where `fp` lies under `base` (all sync paths are
built by joining names onto `base` with `'/'`).  Paths not under `base`
are returned unchanged. -/
def relPath (base fp : String) : String :=
  if listStarts (base ++ "/").toList fp.toList then
    String.mk (fp.toList.drop (base ++ "/").toList.length)
  else fp

/-- Split a character list on `'/'` (model of the path-segment split
`minimatch` performs on both pattern and candidate). -/
def splitSlash : List Char → List (List Char)
  | [] => [[]]
  | c :: rest =>
    let r := splitSlash rest
    if c == '/' then [] :: r
    else
      match r with
      | [] => [[c]]
      | seg :: segs => (c :: seg) :: segs

/-! ## `minimatch` model (src/index.js line 14, used at lines 79 and 82)

The code calls `minimatch` with options `{ dot: true }` and
`{ dot: true, matchBase: true }`.  The model implements the glob core on
`*`, `?`, `**` and literal characters; `dot: true` means no special
treatment of leading dots (which is exactly what plain matching gives),
and `matchBase` matches a slash-free pattern against the candidate's
base name. -/

/-- Glob match of one pattern segment against one path segment
(`*` = any character run, `?` = any single character): a `*` matches
when the rest of the pattern matches some suffix of the candidate. -/
def segMatch : List Char → List Char → Bool
  | [], n => n.isEmpty
  | '*' :: ps, n => n.tails.any fun suf => segMatch ps suf
  | '?' :: ps, n =>
    match n with
    | [] => false
    | _ :: ns => segMatch ps ns
  | c :: ps, n =>
    match n with
    | [] => false
    | x :: ns => c == x && segMatch ps ns

/-- Glob match of a segmented pattern against a segmented path; a `**`
segment matches any number (including zero) of path segments. -/
def globSegs : List (List Char) → List (List Char) → Bool
  | [], ns => ns.isEmpty
  | p :: ps, ns =>
    if p = ['*', '*'] then
      ns.tails.any fun suf => globSegs ps suf
    else
      match ns with
      | [] => false
      | n :: ns2 => segMatch p n && globSegs ps ns2

/-- `minimatch(target, pattern, { dot: true })`. -/
def minimatchDot (target pattern : String) : Bool :=
  globSegs (splitSlash pattern.toList) (splitSlash target.toList)

/-- `minimatch(target, pattern, { dot: true, matchBase: true })`:
a pattern containing no `'/'` is matched against the base name. -/
def minimatchDotBase (target pattern : String) : Bool :=
  if pattern.toList.contains '/' then minimatchDot target pattern
  else minimatchDot (jsBasename target) pattern

/-! ## Ignore matcher (src/index.js lines 75-88) -/

/-- `shouldIgnore(filePath, ignorePatterns, basePath)` from src/index.js:
computes the root-relative path with forward slashes, and for each
pattern tests it with `{dot, matchBase}` and independently tests the
bare base name with `{dot}`; true on the first match. -/
def shouldIgnore (filePath : String) (ignorePatterns : List String)
    (basePath : String) : Bool :=
  let relativePath := relPath basePath filePath
  ignorePatterns.any fun pattern =>
    minimatchDotBase relativePath pattern ||
      minimatchDot (jsBasename filePath) pattern

/-! ## Sync engine (src/index.js lines 200-273)

The local directory tree passed to `fs.readdir`/`fs.stat` is modelled by
`LTree` (dirent name plus mtime for files, dirent name plus children for
directories).  The remote client (`client.stat`/`client.list(..).find`,
`client.put`/`client.uploadFrom`, `client.mkdir`/`client.ensureDir`) is
modelled by a `RemoteOracle` of response functions; a thrown JS exception
is an `Except.error`. -/

/-- A local directory entry as seen by `fs.readdir(..., {withFileTypes})`
together with the data `fs.stat` would report (mtime, as a number). -/
inductive LTree where
  | file (name : String) (mtime : Nat)
  | dir (name : String) (children : List LTree)

/-- The dirent's `file.name`. -/
def LTree.name : LTree → String
  | .file n _ => n
  | .dir n _ => n

/-- The mutable `stats` record accumulated by `syncFiles`. -/
structure SyncStats where
  uploaded : Nat
  downloaded : Nat
  skipped : Nat
  ignored : Nat
  errors : List String
deriving Repr, DecidableEq

/-- The initial `{ uploaded: 0, downloaded: 0, skipped: 0, errors: [], ignored: 0 }`. -/
def SyncStats.empty : SyncStats := ⟨0, 0, 0, 0, []⟩

/-- Merging a sub-report into the running totals
(`stats.uploaded += subStats.uploaded; ...; stats.errors.push(...)`). -/
def SyncStats.add (a b : SyncStats) : SyncStats :=
  ⟨a.uploaded + b.uploaded, a.downloaded + b.downloaded,
   a.skipped + b.skipped, a.ignored + b.ignored, a.errors ++ b.errors⟩

/-- Responses of the remote client during a sync, keyed by path.
  * `lookup rfp`: the remote metadata probe for the remote file path
    (`client.stat(remoteFilePath)` on SFTP, or
    `(await client.list(remotePath)).find(f => f.name === file.name)` on
    FTP).  `.error ()` models a thrown exception, `.ok none` the FTP
    `find` returning `undefined`, `.ok (some t)` a found entry whose
    normalized modification time is `t`.
  * `put lfp rfp`: the transfer (`client.put` / `client.uploadFrom`);
    `.error msg` models a throw with message `msg`.
  * `mkdir rfp`: `client.mkdir(remoteFilePath, true)` /
    `client.ensureDir(remoteFilePath)`. -/
structure RemoteOracle where
  lookup : String → Except Unit (Option Nat)
  put : String → String → Except String Unit
  mkdir : String → Except String Unit

/-- The transfer step of the file branch: on success `uploaded`
increments; a throw is caught by the per-entry `catch` and recorded as
`` `${localFilePath}: ${error.message}` ``. -/
def uploadStep (o : RemoteOracle) (lfp rfp : String) : SyncStats :=
  match o.put lfp rfp with
  | .ok _ => { SyncStats.empty with uploaded := 1 }
  | .error msg => { SyncStats.empty with errors := [lfp ++ ": " ++ msg] }

mutual

/-- Processing of one dirent of the `for (const file of localFiles)`
loop in `syncFiles` (src/index.js lines 215-269), including the
surrounding per-entry `try`/`catch`.  In the directory branch the
recursive `syncFiles` call is written with its direction guard inlined
(`syncFiles` below is definitionally that guard around `syncList`).
The `shouldIgnore` test, performed once before the
`file.isDirectory()` branch in the source, is written once in each
constructor arm (its value does not depend on the branch). -/
def procEntry (o : RemoteOracle) (pats : List String) (base direction : String)
    (lp rp : String) : LTree → SyncStats
  | .dir name children =>
    if shouldIgnore (lp ++ "/" ++ name) pats base then
      { SyncStats.empty with ignored := 1 }
    else
      match o.mkdir (rp ++ "/" ++ name) with
      | .error msg =>
        { SyncStats.empty with errors := [lp ++ "/" ++ name ++ ": " ++ msg] }
      | .ok _ =>
        if direction = "upload" ∨ direction = "both" then
          syncList o pats base direction (lp ++ "/" ++ name) (rp ++ "/" ++ name)
            children
        else SyncStats.empty
  | .file name mtime =>
    if shouldIgnore (lp ++ "/" ++ name) pats base then
      { SyncStats.empty with ignored := 1 }
    else
      match o.lookup (rp ++ "/" ++ name) with
      | .ok (some remoteTime) =>
        if mtime ≤ remoteTime then { SyncStats.empty with skipped := 1 }
        else uploadStep o (lp ++ "/" ++ name) (rp ++ "/" ++ name)
      | .ok none => uploadStep o (lp ++ "/" ++ name) (rp ++ "/" ++ name)
      | .error _ => uploadStep o (lp ++ "/" ++ name) (rp ++ "/" ++ name)

/-- The `for (const file of localFiles)` loop of `syncFiles`, as a fold
over the dirent list. -/
def syncList (o : RemoteOracle) (pats : List String) (base direction : String)
    (lp rp : String) : List LTree → SyncStats
  | [] => SyncStats.empty
  | e :: rest =>
    (procEntry o pats base direction lp rp e).add
      (syncList o pats base direction lp rp rest)

end

/-- `syncFiles(client, useSFTP, localPath, remotePath, direction, ...)`
from src/index.js lines 200-273, with the ignore patterns already
resolved (`ignorePatterns`/`basePath` non-null; the top-level null case
loads them from disk, and `extraExclude` is already concatenated — both
only determine the pattern list passed here).  The entire body after the
pattern setup is the single `if (direction === 'upload' || direction ===
'both')` block; there is no branch for any other direction value. -/
def syncFiles (o : RemoteOracle) (pats : List String) (base direction : String)
    (lp rp : String) (entries : List LTree) : SyncStats :=
  if direction = "upload" ∨ direction = "both" then
    syncList o pats base direction lp rp entries
  else SyncStats.empty

mutual

/-- Number of local dirents whose processing begins when `procEntry`
handles `e` (the entry itself, plus — for a non-ignored directory whose
remote mkdir succeeded — the dirents visited by the recursive sync). -/
def visitedEntry (o : RemoteOracle) (pats : List String) (base direction : String)
    (lp rp : String) : LTree → Nat
  | .dir name children =>
    if shouldIgnore (lp ++ "/" ++ name) pats base then 1
    else
      match o.mkdir (rp ++ "/" ++ name) with
      | .error _ => 1
      | .ok _ =>
        if direction = "upload" ∨ direction = "both" then
          1 + visitedList o pats base direction (lp ++ "/" ++ name)
                (rp ++ "/" ++ name) children
        else 1
  | .file _ _ => 1

/-- Number of local dirents visited by `syncList`. -/
def visitedList (o : RemoteOracle) (pats : List String) (base direction : String)
    (lp rp : String) : List LTree → Nat
  | [] => 0
  | e :: rest =>
    visitedEntry o pats base direction lp rp e +
      visitedList o pats base direction lp rp rest

end

/-! ## Recursive tree walk (src/index.js lines 172-198)

The remote directory structure reachable from the start path is modelled
by a forest of `RTree` nodes; `client.list(p)` on a directory returns
its children's listing data.  `isDir` abstracts
`useSFTP ? file.type === 'd' : file.isDirectory`, and `modified`
abstracts `file.modifyTime || file.date`. -/

/-- A remote node: its listing row data plus its children. -/
inductive RTree where
  | mk (name : String) (isDir : Bool) (size : Nat) (modified : Nat)
      (children : List RTree)

def RTree.name : RTree → String
  | .mk n _ _ _ _ => n

def RTree.isDir : RTree → Bool
  | .mk _ d _ _ _ => d

def RTree.size : RTree → Nat
  | .mk _ _ s _ _ => s

def RTree.modified : RTree → Nat
  | .mk _ _ _ m _ => m

def RTree.children : RTree → List RTree
  | .mk _ _ _ _ c => c

/-- One result row pushed by `getTreeRecursive`. -/
structure REntry where
  path : String
  name : String
  isDirectory : Bool
  size : Nat
  modified : Nat
deriving Repr, DecidableEq

/-- `remotePath === '.' ? fileName : remotePath + '/' + fileName`. -/
def fullPathOf (remotePath name : String) : String :=
  if remotePath = "." then name else remotePath ++ "/" ++ name

/-- The record pushed for one listed file. -/
def entryOf (remotePath : String) (t : RTree) : REntry :=
  { path := fullPathOf remotePath t.name
    name := t.name
    isDirectory := t.isDir
    size := t.size
    modified := t.modified }

mutual

/-- The body of the `for (const file of files)` loop of
`getTreeRecursive` for one file: push the entry, and when it is a
directory other than `.`/`..`, append the recursive walk of it at
`depth + 1` (the recursive `getTreeRecursive` call is written with its
depth guard inlined; `getTreeRecursive` below is definitionally that
guard around `treeList`). -/
def treeEntry (remotePath : String) (depth maxDepth : Nat) : RTree → List REntry
  | .mk name isDir size modified children =>
    let fullPath := fullPathOf remotePath name
    { path := fullPath, name := name, isDirectory := isDir
      size := size, modified := modified } ::
      (if isDir = true ∧ name ≠ "." ∧ name ≠ ".." then
        (if depth + 1 > maxDepth then []
         else treeList fullPath (depth + 1) maxDepth children)
       else [])

/-- The `for (const file of files)` loop of `getTreeRecursive`. -/
def treeList (remotePath : String) (depth maxDepth : Nat) :
    List RTree → List REntry
  | [] => []
  | t :: rest =>
    treeEntry remotePath depth maxDepth t ++
      treeList remotePath depth maxDepth rest

end

/-- `getTreeRecursive(client, useSFTP, remotePath, depth, maxDepth)` from
src/index.js lines 172-198, over the modelled remote forest. -/
def getTreeRecursive (remotePath : String) (forest : List RTree)
    (depth maxDepth : Nat) : List REntry :=
  if depth > maxDepth then [] else treeList remotePath depth maxDepth forest

/-- Specification-side definition, following the spec's words for the
depth bound ("Depth is counted in directory levels, starting at 0 for
the immediate children of `startPath`"): the entries of the forest lying
at exactly depth `d`, where depth 0 is the immediate children and a
directory named `.` or `..` contributes no deeper entries. -/
def entriesAtDepth : Nat → String → List RTree → List REntry
  | 0, rp, forest => forest.map (entryOf rp)
  | d + 1, rp, forest =>
    (forest.map fun t =>
      if t.isDir = true ∧ t.name ≠ "." ∧ t.name ≠ ".." then
        entriesAtDepth d (fullPathOf rp t.name) t.children
      else []).flatten
termination_by d _ _ => d

/-! ## `ftp_exists` handler (src/index.js lines 938-959) -/

/-- `path.substring(0, path.lastIndexOf('/'))` needs the last slash
position; `none` models `lastIndexOf === -1`. -/
def lastSlashPos : List Char → Option Nat
  | [] => none
  | c :: rest =>
    match lastSlashPos rest with
    | some i => some (i + 1)
    | none => if c == '/' then some 0 else none

/-- `path.substring(0, path.lastIndexOf('/')) || '.'` (an empty
substring — no slash, or a single leading slash — falls back to `.`). -/
def jsDirName (s : String) : String :=
  match lastSlashPos s.toList with
  | none => "."
  | some i => if i = 0 then "." else String.mk (s.toList.take i)

/-- `path.substring(path.lastIndexOf('/') + 1)`. -/
def jsNamePart (s : String) : String :=
  match lastSlashPos s.toList with
  | none => s
  | some i => String.mk (s.toList.drop (i + 1))

/-- The `ftp_exists` tool handler: on SFTP `client.stat(path)` succeeding
means `true`; on FTP the parent directory is listed and the base name
searched for (`files.some(f => f.name === fileName)`); the `catch (e)`
around the whole lookup turns any thrown error into `false`.  `stat` and
`list` are oracles for the client's responses (`.error` models a throw;
the FTP `list` result is modelled by its sequence of entry names). -/
def ftpExists (useSFTP : Bool) (stat : String → Except String Unit)
    (list : String → Except String (List String)) (p : String) : Bool :=
  if useSFTP then
    match stat p with
    | .ok _ => true
    | .error _ => false
  else
    match list (jsDirName p) with
    | .ok names => names.contains (jsNamePart p)
    | .error _ => false

/-! ## `ftp_copy` handler (src/index.js lines 991-1006) -/

/-- Remote operations observable during a copy: reading a file's content
(`client.get`) and writing content to a path (`client.put`). -/
inductive CopyAct where
  | get (p : String)
  | put (p : String) (data : String)
deriving Repr, DecidableEq

/-- Result of the `ftp_copy` handler: the text returned to the caller
and the remote operations performed, in order. -/
structure CopyResult where
  message : String
  acts : List CopyAct
deriving Repr, DecidableEq

/-- The `ftp_copy` tool handler: on a non-SFTP connection it returns the
unsupported-error text without touching the server; on SFTP it performs
`const buffer = await client.get(sourcePath); await client.put(buffer,
destPath)` — a read of the source followed by a write of that content to
the destination.  `content` is the oracle giving each remote file's
content. -/
def ftpCopy (content : String → String) (useSFTP : Bool)
    (sourcePath destPath : String) : CopyResult :=
  if useSFTP = false then
    { message := "Error: ftp_copy is only supported for SFTP connections. For FTP, download and re-upload."
      acts := [] }
  else
    { message := "Successfully copied " ++ sourcePath ++ " to " ++ destPath
      acts := [CopyAct.get sourcePath, CopyAct.put destPath (content sourcePath)] }

/-- Whether a copy-trace operation is a content read of some path. -/
def CopyAct.isGet : CopyAct → Bool
  | .get _ => true
  | .put _ _ => false

/-- The number of local dirents visited by a whole `syncFiles` call
(zero when the direction guard does not run the walk at all). -/
def visitedFiles (o : RemoteOracle) (pats : List String) (base direction : String)
    (lp rp : String) (entries : List LTree) : Nat :=
  if direction = "upload" ∨ direction = "both" then
    visitedList o pats base direction lp rp entries
  else 0

/-! ## Helper lemmas -/

theorem listStarts_trans {a b c : List Char}
    (hab : listStarts a b = true) (hbc : listStarts b c = true) :
    listStarts a c = true := by
  induction a generalizing b c with
  | nil => rfl
  | cons x xs ih =>
    cases b with
    | nil => simp [listStarts] at hab
    | cons y ys =>
      cases c with
      | nil => simp [listStarts] at hbc
      | cons z zs =>
        simp only [listStarts, Bool.and_eq_true, beq_iff_eq] at hab hbc ⊢
        exact ⟨hab.1.trans hbc.1, ih hab.2 hbc.2⟩

theorem listStarts_listInside {sub s : List Char}
    (h : listStarts sub s = true) : listInside sub s = true := by
  cases s with
  | nil => exact h
  | cons c rest => simp [listInside, h]

theorem startsWith_contains {h : String}
    (hp : strStartsWith h "sftp://" = true) : strContains h "sftp" = true := by
  have h1 : listStarts "sftp".toList "sftp://".toList = true := by decide
  exact listStarts_listInside (listStarts_trans h1 hp)

/-- Every dirent processed by the upload walk contributes at most one to
`uploaded + skipped + ignored`. -/
theorem counts_le_visitedList (o : RemoteOracle) (pats : List String)
    (base direction : String) :
    ∀ lp rp entries,
      (syncList o pats base direction lp rp entries).uploaded
        + (syncList o pats base direction lp rp entries).skipped
        + (syncList o pats base direction lp rp entries).ignored
        ≤ visitedList o pats base direction lp rp entries := by
  refine syncList.induct o pats base direction
    (fun lp rp e =>
      (procEntry o pats base direction lp rp e).uploaded
        + (procEntry o pats base direction lp rp e).skipped
        + (procEntry o pats base direction lp rp e).ignored
        ≤ visitedEntry o pats base direction lp rp e)
    (fun lp rp es =>
      (syncList o pats base direction lp rp es).uploaded
        + (syncList o pats base direction lp rp es).skipped
        + (syncList o pats base direction lp rp es).ignored
        ≤ visitedList o pats base direction lp rp es)
    ?_ ?_ ?_ ?_ ?_ ?_ ?_ ?_ ?_ ?_ ?_
  · intro lp rp name children hig
    simp [procEntry, visitedEntry, hig, SyncStats.empty]
  · intro lp rp name children hig msg hmk
    simp [procEntry, visitedEntry, hig, hmk, SyncStats.empty]
  · intro lp rp name children hig a hmk hdir ih
    simp [procEntry, visitedEntry, hig, hmk, hdir]
    omega
  · intro lp rp name children hig a hmk hdir
    simp [procEntry, visitedEntry, hig, hmk, hdir, SyncStats.empty]
  · intro lp rp name mtime hig
    simp [procEntry, visitedEntry, hig, SyncStats.empty]
  · intro lp rp name mtime hig remoteTime hlk hle
    simp [procEntry, visitedEntry, hig, hlk, hle, SyncStats.empty]
  · intro lp rp name mtime hig remoteTime hlk hle
    simp [procEntry, visitedEntry, hig, hlk, hle, uploadStep, SyncStats.empty]
    cases h : o.put (lp ++ "/" ++ name) (rp ++ "/" ++ name) <;>
      simp [h, SyncStats.empty]
  · intro lp rp name mtime hig hlk
    simp [procEntry, visitedEntry, hig, hlk, uploadStep, SyncStats.empty]
    cases h : o.put (lp ++ "/" ++ name) (rp ++ "/" ++ name) <;>
      simp [h, SyncStats.empty]
  · intro lp rp name mtime hig a hlk
    simp [procEntry, visitedEntry, hig, hlk, uploadStep, SyncStats.empty]
    cases h : o.put (lp ++ "/" ++ name) (rp ++ "/" ++ name) <;>
      simp [h, SyncStats.empty]
  · intro lp rp
    simp [syncList, visitedList, SyncStats.empty]
  · intro lp rp e rest ih1 ih2
    simp [syncList, visitedList, SyncStats.add]
    omega

/-- No branch of the sync walk ever touches the `downloaded` counter. -/
theorem syncList_downloaded_zero (o : RemoteOracle) (pats : List String)
    (base direction : String) :
    ∀ lp rp entries,
      (syncList o pats base direction lp rp entries).downloaded = 0 := by
  refine syncList.induct o pats base direction
    (fun lp rp e => (procEntry o pats base direction lp rp e).downloaded = 0)
    (fun lp rp es => (syncList o pats base direction lp rp es).downloaded = 0)
    ?_ ?_ ?_ ?_ ?_ ?_ ?_ ?_ ?_ ?_ ?_
  · intro lp rp name children hig
    simp [procEntry, hig, SyncStats.empty]
  · intro lp rp name children hig msg hmk
    simp [procEntry, hig, hmk, SyncStats.empty]
  · intro lp rp name children hig a hmk hdir ih
    simp [procEntry, hig, hmk, hdir]
    exact ih
  · intro lp rp name children hig a hmk hdir
    simp [procEntry, hig, hmk, hdir, SyncStats.empty]
  · intro lp rp name mtime hig
    simp [procEntry, hig, SyncStats.empty]
  · intro lp rp name mtime hig remoteTime hlk hle
    simp [procEntry, hig, hlk, hle, SyncStats.empty]
  · intro lp rp name mtime hig remoteTime hlk hle
    simp [procEntry, hig, hlk, hle, uploadStep, SyncStats.empty]
    cases h : o.put (lp ++ "/" ++ name) (rp ++ "/" ++ name) <;>
      simp [h, SyncStats.empty]
  · intro lp rp name mtime hig hlk
    simp [procEntry, hig, hlk, uploadStep, SyncStats.empty]
    cases h : o.put (lp ++ "/" ++ name) (rp ++ "/" ++ name) <;>
      simp [h, SyncStats.empty]
  · intro lp rp name mtime hig a hlk
    simp [procEntry, hig, hlk, uploadStep, SyncStats.empty]
    cases h : o.put (lp ++ "/" ++ name) (rp ++ "/" ++ name) <;>
      simp [h, SyncStats.empty]
  · intro lp rp
    simp [syncList, SyncStats.empty]
  · intro lp rp e rest ih1 ih2
    simp [syncList, SyncStats.add, ih1, ih2]

/-! ## Claim theorems -/

/-- C10: protocol selection tests whether the host string contains the
substring `"sftp"` anywhere (the `startsWith('sftp://')` disjunct is
subsumed); such hosts get default port 22, all others default port 21,
and a plain-FTP hostname that merely contains `"sftp"` is treated as
SFTP. -/
theorem protocol_selection_substring :
    (∀ host : String, isSFTP host = true ↔ strContains host "sftp" = true)
    ∧ (∀ host : String, isSFTP host = true → getPort host none = 22)
    ∧ (∀ host : String, isSFTP host = false → getPort host none = 21)
    ∧ isSFTP "plain-ftp-sftp-mirror.example.com" = true
    ∧ getPort "plain-ftp-sftp-mirror.example.com" none = 22 := by
  refine ⟨?_, ?_, ?_, by decide, by decide⟩
  · intro host
    constructor
    · intro hh
      simp only [isSFTP, Bool.or_eq_true] at hh
      rcases hh with h1 | h2
      · exact h1
      · exact startsWith_contains h2
    · intro hc
      simp only [isSFTP, Bool.or_eq_true]
      exact Or.inl hc
  · intro host hh
    simp [getPort, hh]
  · intro host hh
    simp [getPort, hh]

/-- Witness for C10 at concrete hosts. -/
theorem protocol_selection_substring_witness :
    getPort "sftp.example.com" none = 22 ∧ getPort "ftp.example.com" none = 21 :=
  ⟨protocol_selection_substring.2.1 "sftp.example.com" (by decide),
   protocol_selection_substring.2.2.1 "ftp.example.com" (by decide)⟩

/-- C1 (the claimed download pass does not exist in the code): a sync
invoked with direction `'download'` returns the all-zero report without
fetching anything, and no direction ever increments `downloaded` —
`syncFiles` only has an `upload`/`both` branch. -/
theorem sync_download_is_noop :
    (∀ (o : RemoteOracle) (pats : List String) (base lp rp : String)
        (entries : List LTree),
        syncFiles o pats base "download" lp rp entries = SyncStats.empty)
    ∧ (∀ (o : RemoteOracle) (pats : List String)
        (base direction lp rp : String) (entries : List LTree),
        (syncFiles o pats base direction lp rp entries).downloaded = 0) := by
  constructor
  · intro o pats base lp rp entries
    simp [syncFiles]
  · intro o pats base direction lp rp entries
    unfold syncFiles
    split
    · exact syncList_downloaded_zero o pats base direction lp rp entries
    · rfl

/-- C2 counterexample: the claim that copy is never implemented by
reading the source content and re-writing it is false — on an SFTP
connection `ftp_copy` performs exactly a content read of the source. -/
theorem ftp_copy_reads_source :
    ¬ ∀ (content : String → String) (src dst : String),
        ((ftpCopy content true src dst).acts.all fun a => !a.isGet) = true := by
  intro h
  exact absurd (h (fun _ => "payload") "a.txt" "b.txt") (by decide)

/-- C2 amended: on a non-SFTP connection `ftp_copy` fails with the
unsupported-operation message and performs no remote operation (source
and destination untouched); on SFTP it is implemented by reading the
source content and re-writing that content to the destination — not by
a native server-side duplicate. -/
theorem ftp_copy_unsupported_or_read_write :
    (∀ (content : String → String) (src dst : String),
        (ftpCopy content false src dst).acts = []
        ∧ (ftpCopy content false src dst).message
            = "Error: ftp_copy is only supported for SFTP connections. For FTP, download and re-upload.")
    ∧ (∀ (content : String → String) (src dst : String),
        (ftpCopy content true src dst).acts
          = [CopyAct.get src, CopyAct.put dst (content src)]) := by
  constructor
  · intro content src dst
    exact ⟨rfl, rfl⟩
  · intro content src dst
    rfl

/-- C7: the `ftp_exists` handler turns every error raised during its
internal `stat` (SFTP) or parent-directory `list` (FTP) lookup — of any
kind, not only not-found — into the result `false` instead of
propagating it. -/
theorem ftp_exists_swallows_errors :
    (∀ (stat : String → Except String Unit)
        (list : String → Except String (List String)) (p e : String),
        stat p = Except.error e → ftpExists true stat list p = false)
    ∧ (∀ (stat : String → Except String Unit)
        (list : String → Except String (List String)) (p e : String),
        list (jsDirName p) = Except.error e → ftpExists false stat list p = false) := by
  constructor
  · intro stat list p e h
    simp [ftpExists, h]
  · intro stat list p e h
    simp [ftpExists, h]

/-- Witness for C7: a permission-denied-style failure in either lookup
yields `false`. -/
theorem ftp_exists_swallows_errors_witness :
    ftpExists true (fun _ => Except.error "EACCES: permission denied")
        (fun _ => Except.ok []) "/srv/secret.txt" = false
    ∧ ftpExists false (fun _ => Except.ok ())
        (fun _ => Except.error "EACCES: permission denied") "/srv/secret.txt" = false :=
  ⟨ftp_exists_swallows_errors.1 (fun _ => Except.error "EACCES: permission denied")
      (fun _ => Except.ok []) "/srv/secret.txt" "EACCES: permission denied" rfl,
   ftp_exists_swallows_errors.2 (fun _ => Except.ok ())
      (fun _ => Except.error "EACCES: permission denied") "/srv/secret.txt"
      "EACCES: permission denied" rfl⟩

/-- C8: for every sync run, `uploaded + skipped + ignored` never exceeds
the number of local dirents visited — each visited entry contributes to
at most one of the three counters. -/
theorem sync_counts_le_visited :
    ∀ (o : RemoteOracle) (pats : List String) (base direction lp rp : String)
      (entries : List LTree),
      (syncFiles o pats base direction lp rp entries).uploaded
        + (syncFiles o pats base direction lp rp entries).skipped
        + (syncFiles o pats base direction lp rp entries).ignored
        ≤ visitedFiles o pats base direction lp rp entries := by
  intro o pats base direction lp rp entries
  unfold syncFiles visitedFiles
  split
  · exact counts_le_visitedList o pats base direction lp rp entries
  · simp [SyncStats.empty]

/-- C3: per-file upload decision.  For a non-ignored local file: when no
remote entry is found (`find` returns nothing, or the lookup throws),
or one is found whose modification time is strictly older than the
local one, the file is transferred and `uploaded` is incremented; when
the found remote time is equal to or newer, nothing is transferred and
`skipped` is incremented (the result then does not depend on the
transfer oracle at all). -/
theorem sync_upload_mtime_decision :
    ∀ (o : RemoteOracle) (pats : List String) (base lp rp name : String)
      (mtime : Nat),
      shouldIgnore (lp ++ "/" ++ name) pats base = false →
      (((o.lookup (rp ++ "/" ++ name) = Except.ok none
          ∨ o.lookup (rp ++ "/" ++ name) = Except.error ()) →
        o.put (lp ++ "/" ++ name) (rp ++ "/" ++ name) = Except.ok () →
        syncFiles o pats base "upload" lp rp [LTree.file name mtime]
          = { SyncStats.empty with uploaded := 1 })
      ∧ ∀ remoteTime : Nat,
          o.lookup (rp ++ "/" ++ name) = Except.ok (some remoteTime) →
          ((remoteTime < mtime →
            o.put (lp ++ "/" ++ name) (rp ++ "/" ++ name) = Except.ok () →
            syncFiles o pats base "upload" lp rp [LTree.file name mtime]
              = { SyncStats.empty with uploaded := 1 })
          ∧ (mtime ≤ remoteTime →
            syncFiles o pats base "upload" lp rp [LTree.file name mtime]
              = { SyncStats.empty with skipped := 1 }))) := by
  intro o pats base lp rp name mtime hig
  constructor
  · intro hlk hput
    rcases hlk with h | h <;>
      simp [syncFiles, syncList, procEntry, uploadStep, hig, h, hput,
        SyncStats.add, SyncStats.empty]
  · intro remoteTime hlk
    constructor
    · intro hlt hput
      simp [syncFiles, syncList, procEntry, uploadStep, hig, hlk, hput,
        Nat.not_le_of_lt hlt, SyncStats.add, SyncStats.empty]
    · intro hle
      simp [syncFiles, syncList, procEntry, hig, hlk, hle,
        SyncStats.add, SyncStats.empty]

/-- Witness for C3: a missing remote file is uploaded; an equal-time
remote file is skipped. -/
theorem sync_upload_mtime_decision_witness :
    syncFiles ⟨fun _ => Except.ok none, fun _ _ => Except.ok (), fun _ => Except.ok ()⟩
        [] "/L" "upload" "/L" "/R" [LTree.file "a.txt" 5]
      = { SyncStats.empty with uploaded := 1 }
    ∧ syncFiles ⟨fun _ => Except.ok (some 5), fun _ _ => Except.ok (), fun _ => Except.ok ()⟩
        [] "/L" "upload" "/L" "/R" [LTree.file "a.txt" 5]
      = { SyncStats.empty with skipped := 1 } :=
  ⟨(sync_upload_mtime_decision
      ⟨fun _ => Except.ok none, fun _ _ => Except.ok (), fun _ => Except.ok ()⟩
      [] "/L" "/L" "/R" "a.txt" 5 (by decide)).1 (Or.inl rfl) rfl,
   ((sync_upload_mtime_decision
      ⟨fun _ => Except.ok (some 5), fun _ _ => Except.ok (), fun _ => Except.ok ()⟩
      [] "/L" "/L" "/R" "a.txt" 5 (by decide)).2 5 rfl).2 (by decide)⟩

/-- C9: when the remote metadata lookup for a non-ignored file throws —
any error, not only not-found — the error is swallowed by the inner
empty `catch`, the file is treated as absent remotely and uploaded, and
the report's error list stays empty. -/
theorem sync_lookup_error_swallowed :
    ∀ (o : RemoteOracle) (pats : List String) (base lp rp name : String)
      (mtime : Nat),
      shouldIgnore (lp ++ "/" ++ name) pats base = false →
      o.lookup (rp ++ "/" ++ name) = Except.error () →
      o.put (lp ++ "/" ++ name) (rp ++ "/" ++ name) = Except.ok () →
      syncFiles o pats base "upload" lp rp [LTree.file name mtime]
        = { SyncStats.empty with uploaded := 1 } := by
  intro o pats base lp rp name mtime hig hlk hput
  simp [syncFiles, syncList, procEntry, uploadStep, hig, hlk, hput,
    SyncStats.add, SyncStats.empty]

/-- Witness for C9: a failing lookup still results in an upload with an
empty error list. -/
theorem sync_lookup_error_swallowed_witness :
    syncFiles ⟨fun _ => Except.error (), fun _ _ => Except.ok (), fun _ => Except.ok ()⟩
        [] "/L" "upload" "/L" "/R" [LTree.file "a.txt" 5]
      = { SyncStats.empty with uploaded := 1 } :=
  sync_lookup_error_swallowed
    ⟨fun _ => Except.error (), fun _ _ => Except.ok (), fun _ => Except.ok ()⟩
    [] "/L" "/L" "/R" "a.txt" 5 (by decide) rfl rfl

/-- C4: per-entry error isolation.  (1) The walk always continues with
the next sibling: the report for `e :: rest` is `e`'s contribution
merged with the report for `rest`, whatever happened to `e`.  (2) A
transfer failure is recorded as the single error string
`"<path>: <message>"` built from the local file path.  (3) In the
concrete 3-file directory where transferring the 2nd file fails, the
report satisfies `uploaded + skipped = 2` with exactly that one error
entry, and the 3rd file is still processed (on its own it uploads). -/
theorem sync_error_isolation :
    (∀ (o : RemoteOracle) (pats : List String) (base direction lp rp : String)
        (e : LTree) (rest : List LTree),
        syncList o pats base direction lp rp (e :: rest)
          = (procEntry o pats base direction lp rp e).add
              (syncList o pats base direction lp rp rest))
    ∧ (∀ (o : RemoteOracle) (pats : List String) (base lp rp name msg : String)
        (mtime : Nat),
        shouldIgnore (lp ++ "/" ++ name) pats base = false →
        o.lookup (rp ++ "/" ++ name) = Except.ok none →
        o.put (lp ++ "/" ++ name) (rp ++ "/" ++ name) = Except.error msg →
        syncFiles o pats base "upload" lp rp [LTree.file name mtime]
          = { SyncStats.empty with errors := [lp ++ "/" ++ name ++ ": " ++ msg] })
    ∧ (let oFail : RemoteOracle :=
        ⟨fun _ => Except.ok none,
         fun lfp _ => if lfp = "/L/b.txt" then Except.error "boom" else Except.ok (),
         fun _ => Except.ok ()⟩
       (syncFiles oFail [] "/L" "upload" "/L" "/R"
          [LTree.file "a.txt" 5, LTree.file "b.txt" 5, LTree.file "c.txt" 5]).uploaded
         + (syncFiles oFail [] "/L" "upload" "/L" "/R"
          [LTree.file "a.txt" 5, LTree.file "b.txt" 5, LTree.file "c.txt" 5]).skipped
         = 2
       ∧ (syncFiles oFail [] "/L" "upload" "/L" "/R"
          [LTree.file "a.txt" 5, LTree.file "b.txt" 5, LTree.file "c.txt" 5]).errors
         = ["/L/b.txt: boom"]
       ∧ syncFiles oFail [] "/L" "upload" "/L" "/R" [LTree.file "c.txt" 5]
         = { SyncStats.empty with uploaded := 1 }) := by
  refine ⟨?_, ?_, by decide⟩
  · intro o pats base direction lp rp e rest
    rfl
  · intro o pats base lp rp name msg mtime hig hlk hput
    simp [syncFiles, syncList, procEntry, uploadStep, hig, hlk, hput,
      SyncStats.add, SyncStats.empty]

/-- Witness for C4: a transfer failure for a single file produces
exactly the formatted error entry, and a sibling processed after a
failing entry still contributes to the report. -/
theorem sync_error_isolation_witness :
    (syncFiles ⟨fun _ => Except.ok none, fun _ _ => Except.error "eperm", fun _ => Except.ok ()⟩
        [] "/L" "upload" "/L" "/R" [LTree.file "f.txt" 3]
      = { SyncStats.empty with errors := ["/L/f.txt: eperm"] })
    ∧ (syncList ⟨fun _ => Except.ok none, fun _ _ => Except.error "eperm", fun _ => Except.ok ()⟩
        [] "/L" "upload" "/L" "/R" [LTree.file "f.txt" 3, LTree.file "g.txt" 3]
      = (procEntry ⟨fun _ => Except.ok none, fun _ _ => Except.error "eperm", fun _ => Except.ok ()⟩
          [] "/L" "upload" "/L" "/R" (LTree.file "f.txt" 3)).add
          (syncList ⟨fun _ => Except.ok none, fun _ _ => Except.error "eperm", fun _ => Except.ok ()⟩
            [] "/L" "upload" "/L" "/R" [LTree.file "g.txt" 3])) :=
  ⟨sync_error_isolation.2.1
      ⟨fun _ => Except.ok none, fun _ _ => Except.error "eperm", fun _ => Except.ok ()⟩
      [] "/L" "/L" "/R" "f.txt" "eperm" 3 (by decide) rfl rfl,
   sync_error_isolation.1
      ⟨fun _ => Except.ok none, fun _ _ => Except.error "eperm", fun _ => Except.ok ()⟩
      [] "/L" "upload" "/L" "/R" (LTree.file "f.txt" 3) [LTree.file "g.txt" 3]⟩

/-- C6: a local entry is ignored exactly when some pattern of the rule
set matches its root-relative forward-slash path (with `matchBase`) or
its bare file name; a slash-free pattern matching the bare name ignores
the entry at any depth; an ignored entry contributes exactly one
`ignored` count and nothing else; and an ignored directory's report
does not depend on its children or on the remote at all — it is not
recursed into. -/
theorem ignore_rule_semantics :
    (∀ (fp : String) (pats : List String) (base : String),
        shouldIgnore fp pats base = true
          ↔ ∃ p ∈ pats,
              minimatchDotBase (relPath base fp) p = true
                ∨ minimatchDot (jsBasename fp) p = true)
    ∧ (∀ (fp : String) (pats : List String) (base p : String),
        p ∈ pats → p.toList.contains '/' = false →
        minimatchDot (jsBasename fp) p = true →
        shouldIgnore fp pats base = true)
    ∧ (∀ (o : RemoteOracle) (pats : List String) (base lp rp name : String)
        (mtime : Nat),
        shouldIgnore (lp ++ "/" ++ name) pats base = true →
        syncFiles o pats base "upload" lp rp [LTree.file name mtime]
          = { SyncStats.empty with ignored := 1 })
    ∧ (∀ (o : RemoteOracle) (pats : List String) (base lp rp name : String)
        (children : List LTree),
        shouldIgnore (lp ++ "/" ++ name) pats base = true →
        syncFiles o pats base "upload" lp rp [LTree.dir name children]
          = { SyncStats.empty with ignored := 1 }) := by
  refine ⟨?_, ?_, ?_, ?_⟩
  · intro fp pats base
    simp [shouldIgnore, List.any_eq_true, Bool.or_eq_true]
  · intro fp pats base p hp hns hm
    simp only [shouldIgnore, List.any_eq_true, Bool.or_eq_true]
    exact ⟨p, hp, Or.inr hm⟩
  · intro o pats base lp rp name mtime hig
    simp [syncFiles, syncList, procEntry, hig, SyncStats.add, SyncStats.empty]
  · intro o pats base lp rp name children hig
    simp [syncFiles, syncList, procEntry, hig, SyncStats.add, SyncStats.empty]

/-- Witness for C6: the slash-free pattern `*.log` ignores a file three
levels deep, and the ignored `node_modules` directory is not recursed
into regardless of its contents. -/
theorem ignore_rule_semantics_witness :
    shouldIgnore "/L/a/b/debug.log" ["*.log"] "/L" = true
    ∧ syncFiles ⟨fun _ => Except.ok none, fun _ _ => Except.ok (), fun _ => Except.ok ()⟩
        ["node_modules/**"] "/L" "upload" "/L" "/R"
        [LTree.dir "node_modules" [LTree.file "pkg.js" 1]]
      = { SyncStats.empty with ignored := 1 } :=
  ⟨ignore_rule_semantics.2.1 "/L/a/b/debug.log" ["*.log"] "/L" "*.log"
      (by decide) (by decide) (by decide),
   ignore_rule_semantics.2.2.2
      ⟨fun _ => Except.ok none, fun _ _ => Except.ok (), fun _ => Except.ok ()⟩
      ["node_modules/**"] "/L" "/L" "/R" "node_modules" [LTree.file "pkg.js" 1]
      (by decide)⟩

/-! ### Tree-walk helper lemmas -/

theorem entriesAtDepth_nil (d : Nat) (rp : String) :
    entriesAtDepth d rp [] = [] := by
  cases d <;> simp [entriesAtDepth]

theorem entriesAtDepth_zero_cons (rp : String) (t : RTree) (rest : List RTree) :
    entriesAtDepth 0 rp (t :: rest) = entryOf rp t :: entriesAtDepth 0 rp rest := by
  simp [entriesAtDepth]

theorem entriesAtDepth_succ_cons (d : Nat) (rp : String) (t : RTree) (rest : List RTree) :
    entriesAtDepth (d + 1) rp (t :: rest)
      = (if t.isDir = true ∧ t.name ≠ "." ∧ t.name ≠ ".." then
           entriesAtDepth d (fullPathOf rp t.name) t.children
         else []) ++ entriesAtDepth (d + 1) rp rest := by
  conv_lhs => rw [entriesAtDepth]
  conv_rhs => rw [entriesAtDepth]
  simp

theorem treeList_self_depth (m : Nat) :
    ∀ (forest : List RTree) (rp : String),
      treeList rp m m forest = forest.map (entryOf rp) := by
  intro forest
  induction forest with
  | nil => intro rp; simp [treeList]
  | cons t rest ih =>
    intro rp
    obtain ⟨name, isDir, size, modified, children⟩ := t
    simp [treeList, treeEntry, entryOf, RTree.name, RTree.isDir, RTree.size,
      RTree.modified, ih, Nat.lt_succ_self]

theorem mem_treeList_iff :
    ∀ (N : Nat) (forest : List RTree), sizeOf forest ≤ N →
      ∀ (rp : String) (depth m : Nat), depth ≤ m → ∀ e : REntry,
        (e ∈ treeList rp depth m forest
          ↔ ∃ d, depth + d ≤ m ∧ e ∈ entriesAtDepth d rp forest) := by
  intro N
  induction N with
  | zero =>
    intro forest h
    exfalso
    cases forest <;> simp at h
  | succ n ih =>
    intro forest hN rp depth m hdm e
    cases forest with
    | nil =>
      simp [treeList, entriesAtDepth_nil]
    | cons t rest =>
      obtain ⟨name, isDir, size, modified, children⟩ := t
      have hrest : sizeOf rest ≤ n := by
        simp at hN; omega
      have hch : sizeOf children ≤ n := by
        simp at hN; omega
      have ihrest := ih rest hrest rp depth m hdm e
      -- abbreviations
      set ent := entryOf rp (RTree.mk name isDir size modified children) with hent
      have hlhs : e ∈ treeList rp depth m (RTree.mk name isDir size modified children :: rest)
          ↔ e = ent
            ∨ ((isDir = true ∧ name ≠ "." ∧ name ≠ "..")
                ∧ ∃ d2, depth + 1 + d2 ≤ m
                    ∧ e ∈ entriesAtDepth d2 (fullPathOf rp name) children)
            ∨ e ∈ treeList rp depth m rest := by
        by_cases hc : isDir = true ∧ name ≠ "." ∧ name ≠ ".."
        · by_cases hg : depth + 1 ≤ m
          · have ihch := ih children hch (fullPathOf rp name) (depth + 1) m hg e
            simp [treeList, treeEntry, hc, Nat.not_lt_of_le hg, hent, entryOf,
              RTree.name, RTree.isDir, RTree.size, RTree.modified, ihch]
            try tauto
          · have hg2 : depth + 1 > m := Nat.lt_of_not_le hg
            simp [treeList, treeEntry, hc, hg2, hent, entryOf,
              RTree.name, RTree.isDir, RTree.size, RTree.modified]
            constructor
            · rintro (h | h)
              · exact Or.inl h
              · exact Or.inr (Or.inr h)
            · rintro (h | ⟨d2, hd2, _⟩ | h)
              · exact Or.inl h
              · omega
              · exact Or.inr h
        · simp [treeList, treeEntry, hc, hent, entryOf,
            RTree.name, RTree.isDir, RTree.size, RTree.modified]
          try tauto
      rw [hlhs, ihrest]
      constructor
      · rintro (h | ⟨hc, d2, hd2, hmem⟩ | ⟨d, hd, hmem⟩)
        · exact ⟨0, by omega, by
            rw [entriesAtDepth_zero_cons]
            exact List.mem_cons.mpr (Or.inl h)⟩
        · refine ⟨d2 + 1, by omega, ?_⟩
          rw [entriesAtDepth_succ_cons]
          refine List.mem_append.mpr (Or.inl ?_)
          simp [RTree.isDir, RTree.name, RTree.children, hc]
          exact hmem
        · refine ⟨d, hd, ?_⟩
          cases d with
          | zero =>
            rw [entriesAtDepth_zero_cons]
            exact List.mem_cons_of_mem _ hmem
          | succ d2 =>
            rw [entriesAtDepth_succ_cons]
            exact List.mem_append.mpr (Or.inr hmem)
      · rintro ⟨d, hd, hmem⟩
        cases d with
        | zero =>
          rw [entriesAtDepth_zero_cons] at hmem
          rcases List.mem_cons.mp hmem with h | h
          · exact Or.inl h
          · exact Or.inr (Or.inr ⟨0, hd, h⟩)
        | succ d2 =>
          rw [entriesAtDepth_succ_cons] at hmem
          rcases List.mem_append.mp hmem with h | h
          · by_cases hc : isDir = true ∧ name ≠ "." ∧ name ≠ ".."
            · simp [RTree.isDir, RTree.name, RTree.children, hc] at h
              exact Or.inr (Or.inl ⟨hc, d2, by omega, h⟩)
            · simp [RTree.isDir, RTree.name, RTree.children, hc] at h
          · exact Or.inr (Or.inr ⟨d2 + 1, hd, h⟩)

theorem treeList_zero_one :
    ∀ (forest : List RTree) (rp : String),
      treeList rp 0 1 forest
        = (forest.map fun t =>
            entryOf rp t ::
              (if t.isDir = true ∧ t.name ≠ "." ∧ t.name ≠ ".." then
                t.children.map (entryOf (fullPathOf rp t.name))
               else [])).flatten := by
  intro forest
  induction forest with
  | nil => intro rp; simp [treeList]
  | cons t rest ih =>
    intro rp
    obtain ⟨name, isDir, size, modified, children⟩ := t
    by_cases hc : isDir = true ∧ name ≠ "." ∧ name ≠ ".."
    · simp [treeList, treeEntry, hc, entryOf, RTree.name, RTree.isDir,
        RTree.size, RTree.modified, RTree.children, ih, treeList_self_depth]
    · simp [treeList, treeEntry, hc, entryOf, RTree.name, RTree.isDir,
        RTree.size, RTree.modified, RTree.children, ih]

/-- C5: the tree walk's depth bound.  `maxDepth = 0` returns exactly the
immediate children of the start path; `maxDepth = 1` additionally
returns the children of first-level directories (other than `.`/`..`)
but nothing deeper; and in general an entry is returned exactly when its
depth — counted in directory levels starting at 0 for the immediate
children — is at most `maxDepth`. -/
theorem tree_walk_depth_bound :
    (∀ (rp : String) (forest : List RTree),
        getTreeRecursive rp forest 0 0 = forest.map (entryOf rp))
    ∧ (∀ (rp : String) (forest : List RTree),
        getTreeRecursive rp forest 0 1
          = (forest.map fun t =>
              entryOf rp t ::
                (if t.isDir = true ∧ t.name ≠ "." ∧ t.name ≠ ".." then
                  t.children.map (entryOf (fullPathOf rp t.name))
                 else [])).flatten)
    ∧ (∀ (rp : String) (forest : List RTree) (maxDepth : Nat) (e : REntry),
        e ∈ getTreeRecursive rp forest 0 maxDepth
          ↔ ∃ d, d ≤ maxDepth ∧ e ∈ entriesAtDepth d rp forest) := by
  refine ⟨?_, ?_, ?_⟩
  · intro rp forest
    simp [getTreeRecursive, treeList_self_depth]
  · intro rp forest
    simp [getTreeRecursive, treeList_zero_one]
  · intro rp forest maxDepth e
    have h := mem_treeList_iff (sizeOf forest) forest le_rfl rp 0 maxDepth
      (Nat.zero_le _) e
    simp only [Nat.zero_add] at h
    simpa [getTreeRecursive] using h

end Flowdex
